import Mathlib

/-!
Verification of the LoRaWAN indoor-measurement support scripts:
the MQTT-to-InfluxDB bridge (`MQTTToInfluxBridge.py`) and the
staleness-alert watcher (`influxdb_datalog_Alerts.py`).

The Python functions are embedded shallowly: JSON values decoded by
`json.loads` become an inductive tree, Python dicts become ordered
association lists (Python dicts preserve insertion order, and assignment
to an existing key keeps its position), exceptions become `Option`
results, and timestamps become integer microsecond counts (the exact
resolution of `datetime`/`timedelta`).
-/

namespace Bridge

/-- JSON-representable values as produced by `json.loads`: objects become
ordered association lists.  Python floats are modelled as rationals; the
program performs no arithmetic on payload values, it only tags and moves
them, so only the exactness of `float(n)` for the small integers appearing
below matters (where IEEE-754 conversion is exact). -/
inductive JsonValue where
  | null
  | bool (b : Bool)
  | int (n : Int)
  | float (q : Rat)
  | str (s : String)
  | list (xs : List JsonValue)
  | obj (fields : List (String × JsonValue))

/-- A Python dict with string keys and JSON values: an ordered association
list with (invariant, established by `dictUpdate`) unique keys. -/
abbrev Dict := List (String × JsonValue)

/-- Python `d[k] = v`: if `k` is already a key, its value is replaced in
place (insertion order kept), otherwise the pair is appended. -/
def dictUpdate (d : Dict) (k : String) (v : JsonValue) : Dict :=
  if d.any (fun p => p.1 = k) then
    d.map (fun p => if p.1 = k then (p.1, v) else p)
  else
    d ++ [(k, v)]

/-- Python `d.update(e)`: assign every entry of `e` into `d`, in order. -/
def dictMerge (d e : Dict) : Dict :=
  e.foldl (fun acc p => dictUpdate acc p.1 p.2) d

/-- The character-wise effect of `.replace('-', '_').replace('.', '_')`. -/
def sanitizeChar (c : Char) : Char :=
  if c = '-' ∨ c = '.' then '_' else c

/-- `s.replace('-', '_').replace('.', '_')`: both patterns are single
characters and the replacement is neither of them, so the two sequential
replace-all calls are exactly a character-wise substitution. -/
def sanitize (s : String) : String :=
  String.mk (s.data.map sanitizeChar)

mutual
/-- Size of a `JsonValue`, weighted so that the synthetic one-entry
mapping built by `flatten_json` for a sequence element is smaller than
the sequence it came from. -/
def sizeV : JsonValue → Nat
  | .obj fs => 1 + sizeFs fs
  | .list xs => 1 + sizeL xs
  | _ => 1

def sizeFs : List (String × JsonValue) → Nat
  | [] => 0
  | p :: r => 1 + sizeV p.2 + sizeFs r

def sizeL : List JsonValue → Nat
  | [] => 0
  | x :: r => 2 + sizeV x + sizeL r
end

mutual
/-- `flatten_json(json_obj, parent_key, sep)` from `MQTTToInfluxBridge.py`,
lines 59-73.  The Python loop mutating the local dict `items` is threaded
here as the accumulator argument `items` (initially `{}` = `[]`); the loop
body over one `(k, v)` entry is `flattenEntry`, and the inner
`for i, item in enumerate(v)` loop is `flattenList`. -/
def flatten_json : List (String × JsonValue) → String → String → Dict → Dict
  | [], _, _, items => items
  | (k, v) :: rest, parent_key, sep, items =>
      flatten_json rest parent_key sep (flattenEntry k v parent_key sep items)
termination_by fs _ _ _ => sizeFs fs
decreasing_by
  all_goals (simp only [sizeFs, sizeV, sizeL]; omega)

/-- One iteration of the `for k, v in json_obj.items()` loop:
`new_key = f"{parent_key}{sep}{k}".replace('-','_').replace('.','_') if
parent_key else k.replace('-','_').replace('.','_')`; then dict values
recurse with `new_key`, list values expand element-wise via `flattenList`,
and other values are assigned at `new_key`. -/
def flattenEntry (k : String) (v : JsonValue) (parent_key sep : String) (items : Dict) : Dict :=
  let new_key := if parent_key = "" then sanitize k else sanitize (parent_key ++ sep ++ k)
  match v with
  | .obj fs => dictMerge items (flatten_json fs new_key sep [])
  | .list xs => flattenList k xs 0 parent_key sep items
  | leaf => dictUpdate items new_key leaf
termination_by sizeV v
decreasing_by
  all_goals (simp only [sizeFs, sizeV, sizeL]; omega)

/-- The `for i, item in enumerate(v)` loop:
`items.update(flatten_json({f"{k}_{i}": item}, parent_key, sep))` — note
the synthetic one-entry mapping keyed `f"{k}_{i}"` (with the original,
unsanitized `k` and a literal underscore) is flattened under the *parent*
key, not under `new_key`. -/
def flattenList (k : String) (xs : List JsonValue) (i : Nat) (parent_key sep : String)
    (items : Dict) : Dict :=
  match xs with
  | [] => items
  | x :: rest =>
      flattenList k rest (i + 1) parent_key sep
        (dictMerge items (flatten_json [(k ++ "_" ++ Nat.repr i, x)] parent_key sep []))
termination_by sizeL xs
decreasing_by
  all_goals (simp only [sizeFs, sizeV, sizeL]; omega)
end

mutual
/-- Python `repr` on a JSON value, as used by `str(flat_payload[key])` in
the list branch of the coercion loop.  That branch is unreachable from
`extract_parameters` — `flatten_json` never leaves a list in its result
(theorem `flatten_json_entries_clean_and_leaf` below) — so only the scalar
cases matter; string quote-escaping and IEEE-754 shortest-round-trip float
formatting are not modelled (both unreachable through the pipeline). -/
def pyRepr : JsonValue → String
  | .null => "None"
  | .bool true => "True"
  | .bool false => "False"
  | .int n => Int.repr n
  | .float q => toString q
  | .str s => String.mk ('\x27' :: s.data) ++ "\x27"
  | .list xs => "[" ++ pyReprSeq xs ++ "]"
  | .obj fs => "\x7b" ++ pyReprFields fs ++ "\x7d"
termination_by v => sizeV v
decreasing_by
  all_goals (simp only [sizeFs, sizeV, sizeL]; omega)

def pyReprSeq : List JsonValue → String
  | [] => ""
  | [x] => pyRepr x
  | x :: y :: r => pyRepr x ++ ", " ++ pyReprSeq (y :: r)
termination_by xs => sizeL xs
decreasing_by
  all_goals (simp only [sizeFs, sizeV, sizeL]; omega)

def pyReprFields : List (String × JsonValue) → String
  | [] => ""
  | [p] => "\x27" ++ p.1 ++ "\x27: " ++ pyRepr p.2
  | p :: q :: r => "\x27" ++ p.1 ++ "\x27: " ++ pyRepr p.2 ++ ", " ++ pyReprFields (q :: r)
termination_by fs => sizeFs fs
decreasing_by
  all_goals (simp only [sizeFs, sizeV, sizeL]; omega)
end

/-- One step of the type-coercion loop (`MQTTToInfluxBridge.py` lines
78-84): `bool` → `str(...)` (checked first, exactly as in the Python
`elif` chain, where `bool` is a subtype of `int`), `int` → `float(...)`,
`list` → `str(...)`; everything else is left in place.  `float(n)` is
modelled exactly (IEEE-754 rounding above 2^53 is not modelled; the
program never does arithmetic on the value). -/
def coerceValue : JsonValue → JsonValue
  | .bool true => .str "True"
  | .bool false => .str "False"
  | .int n => .float (n : Rat)
  | .list xs => .str (pyRepr (.list xs))
  | v => v

/-- `for key in flat_payload: flat_payload[key] = ...` — in-place value
replacement over every entry, keys and order untouched. -/
def coerceAll (d : Dict) : Dict :=
  d.map (fun p => (p.1, coerceValue p.2))

/-- `extract_parameters(payload)` (`MQTTToInfluxBridge.py` lines 50-90).
The argument models the outcome of `json.loads(payload)`: `none` when
decoding raises.  A decoded non-mapping value makes `payload_json.items()`
raise `AttributeError`; the surrounding `try` catches every exception and
returns `None`, modelled as `none`.  On a mapping, the payload is
flattened from an empty parent key and then coerced per value. -/
def extract_parameters (payload : Option JsonValue) : Option Dict :=
  match payload with
  | some (.obj fields) => some (coerceAll (flatten_json fields "" "_" []))
  | _ => none

/-- Python `str.split` with a one-character separator, on the character
list of the string: splits at every occurrence, keeping empty pieces, and
always returns at least one piece. -/
def splitChar (sep : Char) : List Char → List (List Char)
  | [] => [[]]
  | c :: rest =>
      match splitChar sep rest with
      | [] => [[]]
      | g :: gs => if c = sep then [] :: g :: gs else (c :: g) :: gs

/-- `topic.split('/')` as a list of strings. -/
def splitString (s : String) (sep : Char) : List String :=
  (splitChar sep s.data).map String.mk

/-- `extract_device_id(topic)` (`MQTTToInfluxBridge.py` lines 42-48):
`topic.split('/')[4]`.  `none` models the `IndexError` raised when the
topic has fewer than five segments. -/
def extract_device_id (topic : String) : Option String :=
  (splitString topic '/')[4]?

/-- A scalar leaf: neither a mapping nor a sequence. -/
def isLeaf : JsonValue → Bool
  | .obj _ => false
  | .list _ => false
  | _ => true

/-- Is the value a string? -/
def isStr : JsonValue → Bool
  | .str _ => true
  | _ => false

/-- Is the value a float? -/
def isFloat : JsonValue → Bool
  | .float _ => true
  | _ => false

/-- Is the value null? -/
def isNull : JsonValue → Bool
  | .null => true
  | _ => false

/-- The field name contains neither `-` nor `.`. -/
def keyClean (s : String) : Bool :=
  s.data.all (fun c => !(c == '-' || c == '.'))

/-- Observable outcome of one `on_message` invocation. -/
inductive MessageOutcome where
  | raised
  | dropped
  | written (point : Dict)

/-- `on_message(client, userdata, message)` (`MQTTToInfluxBridge.py` lines
27-41).  The payload argument models the `json.loads` outcome of the
UTF-8-decoded payload text.  `extract_device_id` runs first and its
`IndexError` escapes the callback (`raised`); then `if decoded_data:`
drops the message when `extract_parameters` returned `None` or an empty
dict, and otherwise assigns `decoded_data["device_id"] = device_id` and
calls `write_to_influxdb` on the result (`written`). -/
def on_message (topic : String) (payload : Option JsonValue) : MessageOutcome :=
  match extract_device_id topic with
  | none => .raised
  | some device_id =>
      match extract_parameters payload with
      | none => .dropped
      | some d =>
          if d.isEmpty then .dropped
          else .written (dictUpdate d "device_id" (.str device_id))

end Bridge

namespace Alerts

/-- Outcome of the InfluxDB query issued by `query_influxdb_for_device`,
abstracted as a function of the device id: either the (time-descending)
timestamps of the returned points, or an exception.  Timestamps are
absolute microsecond counts — the exact resolution of Python
`datetime`/`timedelta`; converting an instant between UTC and
`Europe/Berlin` (`tz_convert`) does not change the instant, so
`datetime.now(tz) - last_time_berlin` is exactly the difference of the
two instants. -/
inductive QueryOutcome where
  | rows (times : List Int)
  | failure
deriving DecidableEq

/-- `query_influxdb_for_device(client, device_id)`
(`influxdb_datalog_Alerts.py` lines 87-110): returns the queried points;
on any exception, logs and returns an empty DataFrame, modelled as `[]`. -/
def query_influxdb_for_device (store : String → QueryOutcome) (device_id : String) : List Int :=
  match store device_id with
  | .rows ts => ts
  | .failure => []

/-- The static `device_name_map` table (`influxdb_datalog_Alerts.py`
lines 41-48). -/
def device_name_map : List (String × String) :=
  [("pilotdevice", "ED0"), ("pilotdevice01", "ED1"), ("pilotdevice02", "ED2"),
   ("pilotdevice03", "ED3"), ("pilotdevice04", "ED4"), ("pilotdevice05", "ED5")]

/-- Python `m.get(k, d)`: the mapped value, or the default when absent. -/
def dictGet (m : List (String × String)) (k d : String) : String :=
  match m.find? (fun p => p.1 = k) with
  | some p => p.2
  | none => d

/-- An alert as produced by `check_and_alert_for_device`: the mapped
device label and the reported elapsed hours and minutes. -/
structure AlertEvent where
  device : String
  hours : Int
  minutes : Int
deriving DecidableEq

/-- `check_and_alert_for_device(client, device_id)`
(`influxdb_datalog_Alerts.py` lines 113-146), with `now` the current
instant in microseconds.  An empty query result only logs a warning
(`none`).  Otherwise `time_diff = now - last_time`; strictly more than 10
minutes triggers the alert: `total_seconds = int(time_diff.total_seconds())`
(truncation toward zero, `Int.tdiv`), `hours, remainder =
divmod(total_seconds, 3600)` (floor division, `Int.fdiv`/`Int.fmod`),
`minutes = (remainder // 60) % 60`. -/
def check_and_alert_for_device (now : Int) (store : String → QueryOutcome)
    (device_id : String) : Option AlertEvent :=
  match query_influxdb_for_device store device_id with
  | [] => none
  | t :: _ =>
      let time_diff := now - t
      if 600 * 1000000 < time_diff then
        let total_seconds := Int.tdiv time_diff 1000000
        let hours := Int.fdiv total_seconds 3600
        let remainder := Int.fmod total_seconds 3600
        let minutes := Int.fmod (Int.fdiv remainder 60) 60
        some ⟨dictGet device_name_map device_id device_id, hours, minutes⟩
      else none

/-- The per-device loop of `fetch_last_logged_time`
(`influxdb_datalog_Alerts.py` lines 163-164): every identifier in the
scanned set is checked in turn; the loop body neither raises (every
failure path inside it is caught and logged) nor breaks. -/
def fetch_last_logged_time (now : Int) (store : String → QueryOutcome)
    (ids : List String) : List (String × Option AlertEvent) :=
  ids.map (fun id => (id, check_and_alert_for_device now store id))

end Alerts

section MainTheorems

open Bridge Alerts

theorem flattenList_eq_enumFrom_foldl (k : String) (xs : List JsonValue) :
    ∀ (i : Nat) (parent_key sep : String) (items : Dict),
      flattenList k xs i parent_key sep items
        = (List.enumFrom i xs).foldl
            (fun acc p => dictMerge acc (flatten_json [(k ++ "_" ++ Nat.repr p.1, p.2)] parent_key sep []))
            items := by
  induction xs with
  | nil => intro i parent_key sep items; simp [flattenList, List.enumFrom]
  | cons x rest ih =>
      intro i parent_key sep items
      simp [flattenList, List.enumFrom, ih]

/-- C1: a mapping entry holding a sequence is expanded by flattening, for
each element at position `i`, the synthetic one-entry mapping keyed
`k_i` under the current parent key (not under the combined sanitized
key); and the input `\x7b"x-y.z": [1,2]\x7d` normalizes to exactly
`\x7b"x_y_z_0": 1.0, "x_y_z_1": 2.0\x7d`. -/
theorem flatten_expands_sequences_under_parent_key
    (k : String) (xs : List JsonValue) (parent_key sep : String) (items : Dict) :
    flattenEntry k (JsonValue.list xs) parent_key sep items
        = (List.enum xs).foldl
            (fun acc p => dictMerge acc (flatten_json [(k ++ "_" ++ Nat.repr p.1, p.2)] parent_key sep []))
            items
      ∧ extract_parameters (some (.obj [("x-y.z", .list [.int 1, .int 2])]))
          = some [("x_y_z_0", .float 1), ("x_y_z_1", .float 2)] := by
  constructor
  · simp [flattenEntry, List.enum, flattenList_eq_enumFrom_foldl]
  · simp [extract_parameters, coerceAll, coerceValue, flatten_json, flattenEntry, flattenList,
      dictMerge, dictUpdate, sanitize]
    rfl

/-- C2: flattening `\x7b"a": \x7b"b": 1, "c": true\x7d\x7d` and coercing
per leaf yields exactly `\x7b"a_b": 1.0, "a_c": "True"\x7d`. -/
theorem extract_parameters_nested_object_example :
    extract_parameters (some (.obj [("a", .obj [("b", JsonValue.int 1), ("c", JsonValue.bool true)])]))
      = some [("a_b", JsonValue.float 1), ("a_c", JsonValue.str "True")] := by
  simp [extract_parameters, coerceAll, coerceValue, flatten_json, flattenEntry, flattenList,
    dictMerge, dictUpdate, sanitize]
  rfl

/-- C8: on a topic with at least five `/`-separated segments,
`extract_device_id` returns the segment at zero-based index 4. -/
theorem extract_device_id_returns_fifth_segment
    (topic : String) (h : 5 ≤ (splitString topic '/').length) :
    extract_device_id topic = some ((splitString topic '/').get ⟨4, by omega⟩) := by
  simp [extract_device_id, List.getElem?_eq_getElem (by omega : 4 < (splitString topic '/').length)]

theorem extract_device_id_returns_fifth_segment_witness :
    5 ≤ (splitString "a/b/c/d/device42/e" '/').length ∧
      extract_device_id "a/b/c/d/device42/e" = some "device42" :=
  ⟨by decide,
   (extract_device_id_returns_fifth_segment "a/b/c/d/device42/e" (by decide)).trans (by decide)⟩

/-- C10: a mapping entry holding an empty sequence contributes no field
at all, and a payload flattening to the empty record (`\x7b"x": []\x7d` or
`\x7b\x7d`) is dropped by `on_message` exactly like a failed
normalization (`json.loads` raising, modelled by the `none` payload). -/
theorem empty_sequence_vanishes_and_empty_record_dropped
    (k : String) (rest : List (String × JsonValue)) (parent_key sep : String) (items : Dict)
    (topic : String) (h : (extract_device_id topic).isSome) :
    flatten_json ((k, JsonValue.list []) :: rest) parent_key sep items
        = flatten_json rest parent_key sep items
      ∧ on_message topic (some (.obj [("x", .list [])])) = .dropped
      ∧ on_message topic (some (.obj [])) = .dropped
      ∧ on_message topic none = .dropped := by
  obtain ⟨d, hd⟩ := Option.isSome_iff_exists.mp h
  refine ⟨?_, ?_, ?_, ?_⟩
  · simp [flatten_json, flattenEntry, flattenList]
  all_goals
    simp [on_message, hd, extract_parameters, coerceAll, flatten_json, flattenEntry, flattenList]

theorem empty_sequence_vanishes_and_empty_record_dropped_witness :
    ((extract_device_id "a/b/c/d/e").isSome = true)
      ∧ on_message "a/b/c/d/e" (some (.obj [("x", JsonValue.list [])])) = .dropped
      ∧ on_message "a/b/c/d/e" (some (.obj [])) = .dropped
      ∧ on_message "a/b/c/d/e" none = .dropped := by
  have h := empty_sequence_vanishes_and_empty_record_dropped "k" [] "" "_" []
    "a/b/c/d/e" (by decide)
  exact ⟨by decide, h.2.1, h.2.2.1, h.2.2.2⟩

/-- C6: whenever decoding or flattening fails (`json.loads` raising —
the `none` payload — or a decoded payload that is not a mapping),
`extract_parameters` returns `None` instead of raising, and `on_message`
then drops the message without writing anything. -/
theorem failed_normalization_is_dropped
    (topic : String) (payload : Option JsonValue) (v : JsonValue)
    (hv : ∀ fields, v ≠ JsonValue.obj fields)
    (hp : extract_parameters payload = none)
    (ht : (extract_device_id topic).isSome) :
    extract_parameters none = none
      ∧ extract_parameters (some v) = none
      ∧ on_message topic payload = .dropped := by
  obtain ⟨d, hd⟩ := Option.isSome_iff_exists.mp ht
  refine ⟨rfl, ?_, ?_⟩
  · cases v with
    | obj fields => exact absurd rfl (hv fields)
    | _ => rfl
  · simp [on_message, hd, hp]

theorem failed_normalization_is_dropped_witness :
    extract_parameters none = none
      ∧ extract_parameters (some (JsonValue.list [JsonValue.int 1])) = none
      ∧ on_message "a/b/c/d/e" (some (JsonValue.list [JsonValue.int 1])) = .dropped :=
  failed_normalization_is_dropped "a/b/c/d/e" (some (JsonValue.list [JsonValue.int 1]))
    (JsonValue.list [JsonValue.int 1]) (fun _ h => by cases h) rfl (by decide)

/-- C3: for a known device whose last-seen query returns a row, an alert
is produced iff strictly more than 10 minutes elapsed between now and the
last-seen instant; the alert reports hours as the truncated total elapsed
seconds divided by 3600 (floor divmod) and minutes as the remainder
modulo 3600, divided by 60, then modulo 60 (the final modulo being
redundant since the value already lies in [0, 60)); 15 minutes elapsed
yields an alert of 0 hours and 15 minutes, 5 minutes elapsed yields none. -/
theorem staleness_alert_iff_over_ten_minutes
    (now t : Int) (store : String → QueryOutcome) (device_id : String)
    (h : store device_id = QueryOutcome.rows [t]) :
    ((check_and_alert_for_device now store device_id).isSome ↔ 600 * 1000000 < now - t)
      ∧ (∀ ev, check_and_alert_for_device now store device_id = some ev →
          ev.device = dictGet device_name_map device_id device_id
            ∧ ev.hours = Int.fdiv (Int.tdiv (now - t) 1000000) 3600
            ∧ ev.minutes = Int.fmod (Int.fdiv (Int.fmod (Int.tdiv (now - t) 1000000) 3600) 60) 60
            ∧ ev.minutes = Int.fdiv (Int.fmod (Int.tdiv (now - t) 1000000) 3600) 60
            ∧ 0 ≤ ev.minutes ∧ ev.minutes < 60)
      ∧ check_and_alert_for_device 900000000 (fun _ => QueryOutcome.rows [0]) "pilotdevice01"
          = some ⟨"ED1", 0, 15⟩
      ∧ check_and_alert_for_device 300000000 (fun _ => QueryOutcome.rows [0]) "pilotdevice01"
          = none := by
  have hq : query_influxdb_for_device store device_id = [t] := by
    simp [query_influxdb_for_device, h]
  refine ⟨?_, ?_, by decide, by decide⟩
  · by_cases hc : 600 * 1000000 < now - t <;>
      simp [check_and_alert_for_device, hq, hc]
  · intro ev hev
    simp [check_and_alert_for_device, hq] at hev
    obtain ⟨hc, hev⟩ := hev
    subst hev
    have e1 : Int.fmod (Int.tdiv (now - t) 1000000) 3600
        = Int.tdiv (now - t) 1000000 % 3600 := Int.fmod_eq_emod _ (by norm_num)
    have e2 : Int.fdiv (Int.tdiv (now - t) 1000000 % 3600) 60
        = Int.tdiv (now - t) 1000000 % 3600 / 60 := Int.fdiv_eq_ediv _ (by norm_num)
    have e3 : Int.fmod (Int.tdiv (now - t) 1000000 % 3600 / 60) 60
        = Int.tdiv (now - t) 1000000 % 3600 / 60 % 60 := Int.fmod_eq_emod _ (by norm_num)
    refine ⟨rfl, rfl, rfl, ?_, ?_, ?_⟩ <;> simp only [e1, e2, e3] <;> omega

theorem staleness_alert_iff_over_ten_minutes_witness :
    (((check_and_alert_for_device 900000000 (fun _ => QueryOutcome.rows [0])
          "pilotdevice01").isSome ↔ (600 * 1000000 : Int) < 900000000 - 0)
      ∧ (∀ ev, check_and_alert_for_device 900000000 (fun _ => QueryOutcome.rows [0])
            "pilotdevice01" = some ev →
          ev.device = dictGet device_name_map "pilotdevice01" "pilotdevice01"
            ∧ ev.hours = Int.fdiv (Int.tdiv ((900000000 : Int) - 0) 1000000) 3600
            ∧ ev.minutes
                = Int.fmod (Int.fdiv (Int.fmod (Int.tdiv ((900000000 : Int) - 0) 1000000) 3600) 60) 60
            ∧ ev.minutes = Int.fdiv (Int.fmod (Int.tdiv ((900000000 : Int) - 0) 1000000) 3600) 60
            ∧ 0 ≤ ev.minutes ∧ ev.minutes < 60)
      ∧ check_and_alert_for_device 900000000 (fun _ => QueryOutcome.rows [0]) "pilotdevice01"
          = some ⟨"ED1", 0, 15⟩
      ∧ check_and_alert_for_device 300000000 (fun _ => QueryOutcome.rows [0]) "pilotdevice01"
          = none) :=
  staleness_alert_iff_over_ten_minutes 900000000 0 (fun _ => QueryOutcome.rows [0])
    "pilotdevice01" rfl

/-- C7: a device whose last-seen query fails or returns no rows produces
no alert in that scan, and the scan still evaluates every other device
exactly as it would have: the per-device loop over `ids1 ++ id :: ids2`
yields the unchanged results for `ids1` and `ids2` around `(id, none)`. -/
theorem absent_last_seen_skips_device_and_scan_continues
    (now : Int) (store : String → QueryOutcome) (id : String)
    (h : store id = QueryOutcome.failure ∨ store id = QueryOutcome.rows [])
    (ids1 ids2 : List String) :
    fetch_last_logged_time now store (ids1 ++ id :: ids2)
        = fetch_last_logged_time now store ids1
            ++ (id, none) :: fetch_last_logged_time now store ids2
      ∧ check_and_alert_for_device now store id = none := by
  have hnone : check_and_alert_for_device now store id = none := by
    rcases h with h | h <;> simp [check_and_alert_for_device, query_influxdb_for_device, h]
  refine ⟨?_, hnone⟩
  simp [fetch_last_logged_time, hnone]

theorem absent_last_seen_skips_device_and_scan_continues_witness :
    (fetch_last_logged_time 0 (fun _ => QueryOutcome.failure) (["a"] ++ "d" :: ["b"])
        = fetch_last_logged_time 0 (fun _ => QueryOutcome.failure) ["a"]
            ++ ("d", none) :: fetch_last_logged_time 0 (fun _ => QueryOutcome.failure) ["b"]
      ∧ check_and_alert_for_device 0 (fun _ => QueryOutcome.failure) "d" = none) :=
  absent_last_seen_skips_device_and_scan_continues 0 (fun _ => QueryOutcome.failure) "d"
    (Or.inl rfl) ["a"] ["b"]

theorem sanitizeChar_idem (c : Char) : sanitizeChar (sanitizeChar c) = sanitizeChar c := by
  by_cases h : c = '-' ∨ c = '.' <;> simp [sanitizeChar, h]

theorem sanitizeChar_clean (c : Char) :
    (!(sanitizeChar c == '-' || sanitizeChar c == '.')) = true := by
  by_cases h : c = '-' ∨ c = '.'
  · simp [sanitizeChar, h]
  · push_neg at h
    simp [sanitizeChar, h.1, h.2]

theorem sanitize_idem (s : String) : sanitize (sanitize s) = sanitize s := by
  show String.mk (List.map sanitizeChar (List.map sanitizeChar s.data))
      = String.mk (List.map sanitizeChar s.data)
  rw [List.map_map]
  exact congrArg String.mk (List.map_congr_left (fun c _ => sanitizeChar_idem c))

theorem keyClean_sanitize (s : String) : keyClean (sanitize s) = true := by
  show (List.map sanitizeChar s.data).all (fun c => !(c == '-' || c == '.')) = true
  rw [List.all_map]
  exact List.all_eq_true.mpr (fun c _ => sanitizeChar_clean c)

theorem keyClean_newKey (parent_key a b : String) :
    keyClean (if parent_key = "" then sanitize a else sanitize b) = true := by
  by_cases h : parent_key = "" <;> simp [h, keyClean_sanitize]

theorem mem_dictUpdate {d : Dict} {k : String} {v : JsonValue} {p : String × JsonValue}
    (hp : p ∈ dictUpdate d k v) : p ∈ d ∨ p = (k, v) := by
  unfold dictUpdate at hp
  split at hp
  · obtain ⟨q, hq, he⟩ := List.mem_map.mp hp
    by_cases hqk : q.1 = k
    · right
      rw [← he, if_pos hqk, hqk]
    · left
      rwa [← he, if_neg hqk]
  · rcases List.mem_append.mp hp with h | h
    · exact Or.inl h
    · right
      simpa using h

theorem mem_dictMerge {e d : Dict} {p : String × JsonValue}
    (hp : p ∈ dictMerge d e) : p ∈ d ∨ p ∈ e := by
  induction e generalizing d with
  | nil => exact Or.inl (by simpa [dictMerge] using hp)
  | cons q e' ih =>
      have hp' : p ∈ dictMerge (dictUpdate d q.1 q.2) e' := by
        simpa [dictMerge] using hp
      rcases ih hp' with h | h
      · rcases mem_dictUpdate h with h2 | h2
        · exact Or.inl h2
        · exact Or.inr (h2 ▸ List.mem_cons_self q e')
      · exact Or.inr (List.mem_cons_of_mem _ h)

theorem dictUpdate_keys_nodup {d : Dict} {k : String} {v : JsonValue}
    (h : (d.map Prod.fst).Nodup) : ((dictUpdate d k v).map Prod.fst).Nodup := by
  unfold dictUpdate
  split
  · have he : (d.map (fun p => if p.1 = k then (p.1, v) else p)).map Prod.fst
        = d.map Prod.fst := by
      rw [List.map_map]
      exact List.map_congr_left (fun p _ => by by_cases hpk : p.1 = k <;> simp [hpk])
    rwa [he]
  · rename_i hany
    have hk : k ∉ d.map Prod.fst := by
      intro hmem
      obtain ⟨q, hq, hqk⟩ := List.mem_map.mp hmem
      exact hany (List.any_eq_true.mpr ⟨q, hq, by simp [hqk]⟩)
    simp only [List.map_append, List.map_cons, List.map_nil]
    simp [List.nodup_append, h, hk]

mutual
theorem flatten_json_entries_clean_and_leaf :
    ∀ (fields : List (String × JsonValue)) (parent_key sep : String) (items : Dict),
      (∀ p ∈ items, keyClean p.1 = true ∧ isLeaf p.2 = true) →
      ∀ p ∈ flatten_json fields parent_key sep items, keyClean p.1 = true ∧ isLeaf p.2 = true
  | [], _, _, items, hacc => by simpa [flatten_json] using hacc
  | (k, v) :: rest, parent_key, sep, items, hacc => by
      have h1 := flattenEntry_entries_clean_and_leaf k v parent_key sep items hacc
      have h2 := flatten_json_entries_clean_and_leaf rest parent_key sep
        (flattenEntry k v parent_key sep items) h1
      simpa [flatten_json] using h2
termination_by fs _ _ _ => sizeFs fs
decreasing_by
  all_goals (simp only [sizeFs, sizeV, sizeL]; omega)

theorem flattenEntry_entries_clean_and_leaf :
    ∀ (k : String) (v : JsonValue) (parent_key sep : String) (items : Dict),
      (∀ p ∈ items, keyClean p.1 = true ∧ isLeaf p.2 = true) →
      ∀ p ∈ flattenEntry k v parent_key sep items, keyClean p.1 = true ∧ isLeaf p.2 = true
  | k, .obj fs, parent_key, sep, items, hacc => by
      have hsub := flatten_json_entries_clean_and_leaf fs
        (if parent_key = "" then sanitize k else sanitize (parent_key ++ sep ++ k)) sep []
        (by simp)
      intro p hp
      have hp' : p ∈ dictMerge items (flatten_json fs
          (if parent_key = "" then sanitize k else sanitize (parent_key ++ sep ++ k)) sep []) := by
        simpa [flattenEntry] using hp
      rcases mem_dictMerge hp' with h | h
      · exact hacc p h
      · exact hsub p h
  | k, .list xs, parent_key, sep, items, hacc => by
      intro p hp
      have hp' : p ∈ flattenList k xs 0 parent_key sep items := by
        simpa [flattenEntry] using hp
      exact flattenList_entries_clean_and_leaf k xs 0 parent_key sep items hacc p hp'
  | k, .null, parent_key, sep, items, hacc => by
      intro p hp
      have hp' : p ∈ dictUpdate items
          (if parent_key = "" then sanitize k else sanitize (parent_key ++ sep ++ k))
          JsonValue.null := by
        simpa [flattenEntry] using hp
      rcases mem_dictUpdate hp' with h | h
      · exact hacc p h
      · exact h ▸ ⟨keyClean_newKey parent_key k (parent_key ++ sep ++ k), rfl⟩
  | k, .bool b, parent_key, sep, items, hacc => by
      intro p hp
      have hp' : p ∈ dictUpdate items
          (if parent_key = "" then sanitize k else sanitize (parent_key ++ sep ++ k))
          (JsonValue.bool b) := by
        simpa [flattenEntry] using hp
      rcases mem_dictUpdate hp' with h | h
      · exact hacc p h
      · exact h ▸ ⟨keyClean_newKey parent_key k (parent_key ++ sep ++ k), rfl⟩
  | k, .int n, parent_key, sep, items, hacc => by
      intro p hp
      have hp' : p ∈ dictUpdate items
          (if parent_key = "" then sanitize k else sanitize (parent_key ++ sep ++ k))
          (JsonValue.int n) := by
        simpa [flattenEntry] using hp
      rcases mem_dictUpdate hp' with h | h
      · exact hacc p h
      · exact h ▸ ⟨keyClean_newKey parent_key k (parent_key ++ sep ++ k), rfl⟩
  | k, .float q, parent_key, sep, items, hacc => by
      intro p hp
      have hp' : p ∈ dictUpdate items
          (if parent_key = "" then sanitize k else sanitize (parent_key ++ sep ++ k))
          (JsonValue.float q) := by
        simpa [flattenEntry] using hp
      rcases mem_dictUpdate hp' with h | h
      · exact hacc p h
      · exact h ▸ ⟨keyClean_newKey parent_key k (parent_key ++ sep ++ k), rfl⟩
  | k, .str s, parent_key, sep, items, hacc => by
      intro p hp
      have hp' : p ∈ dictUpdate items
          (if parent_key = "" then sanitize k else sanitize (parent_key ++ sep ++ k))
          (JsonValue.str s) := by
        simpa [flattenEntry] using hp
      rcases mem_dictUpdate hp' with h | h
      · exact hacc p h
      · exact h ▸ ⟨keyClean_newKey parent_key k (parent_key ++ sep ++ k), rfl⟩
termination_by _ v _ _ _ => sizeV v
decreasing_by
  all_goals (simp only [sizeFs, sizeV, sizeL]; omega)

theorem flattenList_entries_clean_and_leaf :
    ∀ (k : String) (xs : List JsonValue) (i : Nat) (parent_key sep : String) (items : Dict),
      (∀ p ∈ items, keyClean p.1 = true ∧ isLeaf p.2 = true) →
      ∀ p ∈ flattenList k xs i parent_key sep items, keyClean p.1 = true ∧ isLeaf p.2 = true
  | _, [], _, _, _, items, hacc => by simpa [flattenList] using hacc
  | k, x :: rest, i, parent_key, sep, items, hacc => by
      have hsing := flatten_json_entries_clean_and_leaf [(k ++ "_" ++ Nat.repr i, x)]
        parent_key sep [] (by simp)
      have hmerge : ∀ p ∈ dictMerge items
          (flatten_json [(k ++ "_" ++ Nat.repr i, x)] parent_key sep []),
          keyClean p.1 = true ∧ isLeaf p.2 = true := by
        intro p hp
        rcases mem_dictMerge hp with h | h
        · exact hacc p h
        · exact hsing p h
      have h2 := flattenList_entries_clean_and_leaf k rest (i + 1) parent_key sep _ hmerge
      simpa [flattenList] using h2
termination_by _ xs _ _ _ _ => sizeL xs
decreasing_by
  all_goals (simp only [sizeFs, sizeV, sizeL]; omega)
end

/-- C4 (amended): no sequence-typed value ever survives flattening —
every sequence, including one whose elements are scalar leaves, is
expanded element-wise — so the list branch of the coercion loop is
unreachable and an input holding a list of scalars yields the expanded
elements, not the list's string representation. -/
theorem sequences_never_survive_flattening
    (fields : List (String × JsonValue)) (parent_key sep : String) :
    (∀ p ∈ flatten_json fields parent_key sep [], isLeaf p.2 = true)
      ∧ extract_parameters (some (.obj [("k", .list [.int 1, .int 2])]))
          = some [("k_0", .float 1), ("k_1", .float 2)] := by
  constructor
  · intro p hp
    exact (flatten_json_entries_clean_and_leaf fields parent_key sep [] (by simp) p hp).2
  · simp [extract_parameters, coerceAll, coerceValue, flatten_json, flattenEntry, flattenList,
      dictMerge, dictUpdate, sanitize]
    rfl

theorem sequences_never_survive_flattening_witness :
    (("x", JsonValue.int 3) ∈ flatten_json [("x", JsonValue.int 3)] "" "_" [])
      ∧ isLeaf (JsonValue.int 3) = true := by
  have hm : flatten_json [("x", JsonValue.int 3)] "" "_" [] = [("x", JsonValue.int 3)] := by
    simp [flatten_json, flattenEntry, dictUpdate, sanitize]
    rfl
  refine ⟨by rw [hm]; exact List.mem_singleton.mpr rfl, ?_⟩
  exact (sequences_never_survive_flattening [("x", JsonValue.int 3)] "" "_").1
    ("x", JsonValue.int 3) (by rw [hm]; exact List.mem_singleton.mpr rfl)

/-- C4 (counterexample): for the input `\x7b"k": [1, 2]\x7d` — a mapping
entry holding a list of scalar leaves — the flat record consists of the
expanded elements and contains no string value at all; in particular it
does not contain the string representation of the list. -/
theorem sequence_of_scalars_not_stringified_counterexample :
    extract_parameters (some (.obj [("k", .list [.int 1, .int 2])]))
        = some [("k_0", .float 1), ("k_1", .float 2)]
      ∧ (([("k_0", JsonValue.float 1), ("k_1", JsonValue.float 2)] : Dict).all
          (fun p => !(isStr p.2))) = true := by
  refine ⟨?_, rfl⟩
  simp [extract_parameters, coerceAll, coerceValue, flatten_json, flattenEntry, flattenList,
    dictMerge, dictUpdate, sanitize]
  rfl

/-- C5 (amended): every value of a successfully normalized payload is a
string, a float, or null — booleans, integers, lists and mappings never
remain — and every key is free of the characters `-` and `.`. -/
theorem flat_record_values_and_keys
    (fields : List (String × JsonValue)) (d : Dict)
    (h : extract_parameters (some (.obj fields)) = some d) :
    ∀ p ∈ d, (isStr p.2 || isFloat p.2 || isNull p.2) = true ∧ keyClean p.1 = true := by
  have hd : d = coerceAll (flatten_json fields "" "_" []) := by
    simpa [extract_parameters] using h.symm
  subst hd
  intro p hp
  obtain ⟨q, hq, he⟩ := List.mem_map.mp hp
  have hinv := flatten_json_entries_clean_and_leaf fields "" "_" [] (by simp) q hq
  rw [← he]
  refine ⟨?_, hinv.1⟩
  have hleaf := hinv.2
  rcases q with ⟨qk, qv⟩
  cases qv with
  | null => simp [coerceValue, isNull]
  | bool b => cases b <;> simp [coerceValue, isStr]
  | int n => simp [coerceValue, isFloat]
  | float r => simp [coerceValue, isFloat]
  | str s => simp [coerceValue, isStr]
  | list xs => exact absurd hleaf (by simp [isLeaf])
  | obj fs => exact absurd hleaf (by simp [isLeaf])

theorem flat_record_values_and_keys_witness :
    ((isStr JsonValue.null || isFloat JsonValue.null || isNull JsonValue.null) = true)
      ∧ keyClean "a" = true := by
  have h : extract_parameters (some (.obj [("a", JsonValue.null)]))
      = some [("a", JsonValue.null)] := by
    simp [extract_parameters, coerceAll, coerceValue, flatten_json, flattenEntry, dictUpdate,
      sanitize]
    rfl
  exact flat_record_values_and_keys [("a", JsonValue.null)] [("a", JsonValue.null)] h
    ("a", JsonValue.null) (List.mem_singleton.mpr rfl)

/-- C5 (counterexample): the payload `\x7b"a": null\x7d` normalizes
successfully, yet the resulting record's value is `None` — neither a
string nor a float — so not every value of a normalized record is a
string or a float. -/
theorem null_value_survives_counterexample :
    extract_parameters (some (.obj [("a", JsonValue.null)])) = some [("a", JsonValue.null)]
      ∧ isStr JsonValue.null = false ∧ isFloat JsonValue.null = false := by
  refine ⟨?_, rfl, rfl⟩
  simp [extract_parameters, coerceAll, coerceValue, flatten_json, flattenEntry, dictUpdate,
    sanitize]
  rfl

theorem flatten_json_flat_eq_foldl (x : Dict) (sep : String) :
    ∀ (acc : Dict), (∀ p ∈ x, isLeaf p.2 = true) →
      flatten_json x "" sep acc
        = x.foldl (fun a p => dictUpdate a (sanitize p.1) p.2) acc := by
  induction x with
  | nil => intro acc _; simp [flatten_json]
  | cons q rest ih =>
      intro acc h
      rcases q with ⟨k, v⟩
      have hv : isLeaf v = true := h (k, v) (List.mem_cons_self _ _)
      have hrest : ∀ p ∈ rest, isLeaf p.2 = true := fun p hp => h p (List.mem_cons_of_mem _ hp)
      have hentry : flattenEntry k v "" sep acc = dictUpdate acc (sanitize k) v := by
        cases v <;> simp [isLeaf] at hv <;> simp [flattenEntry]
      rw [show flatten_json ((k, v) :: rest) "" sep acc
          = flatten_json rest "" sep (flattenEntry k v "" sep acc) from by simp [flatten_json]]
      rw [hentry, List.foldl_cons]
      exact ih (dictUpdate acc (sanitize k) v) hrest

theorem foldl_update_entries (x : Dict) :
    ∀ (acc : Dict), (∀ p ∈ x, isLeaf p.2 = true) →
      (∀ p ∈ acc, sanitize p.1 = p.1 ∧ isLeaf p.2 = true) →
      ∀ p ∈ x.foldl (fun a p => dictUpdate a (sanitize p.1) p.2) acc,
        sanitize p.1 = p.1 ∧ isLeaf p.2 = true := by
  induction x with
  | nil => intro acc _ hacc p hp; exact hacc p hp
  | cons q rest ih =>
      intro acc hx hacc p hp
      simp only [List.foldl_cons] at hp
      refine ih _ (fun r hr => hx r (List.mem_cons_of_mem _ hr)) ?_ p hp
      intro r hr
      rcases mem_dictUpdate hr with h | h
      · exact hacc r h
      · subst h
        exact ⟨sanitize_idem _, hx q (List.mem_cons_self _ _)⟩

theorem foldl_update_keys_nodup (x : Dict) :
    ∀ (acc : Dict), (acc.map Prod.fst).Nodup →
      ((x.foldl (fun a p => dictUpdate a (sanitize p.1) p.2) acc).map Prod.fst).Nodup := by
  induction x with
  | nil => intro acc h; simpa using h
  | cons q rest ih =>
      intro acc h
      simp only [List.foldl_cons]
      exact ih _ (dictUpdate_keys_nodup h)

theorem foldl_update_rebuild (d : Dict) :
    ∀ (acc : Dict), ((d.map Prod.fst).Nodup) →
      (∀ p ∈ d, sanitize p.1 = p.1) →
      (∀ p ∈ d, acc.any (fun r => r.1 = p.1) = false) →
      d.foldl (fun a p => dictUpdate a (sanitize p.1) p.2) acc = acc ++ d := by
  induction d with
  | nil => intro acc _ _ _; simp
  | cons q rest ih =>
      intro acc hnd hfix hdisj
      simp only [List.foldl_cons]
      have hupd : dictUpdate acc (sanitize q.1) q.2 = acc ++ [q] := by
        rw [hfix q (List.mem_cons_self _ _)]
        unfold dictUpdate
        rw [if_neg (by simp [hdisj q (List.mem_cons_self _ _)])]
      rw [hupd]
      rw [List.map_cons] at hnd
      have hnd' := (List.nodup_cons.mp hnd).2
      have hq1 : q.1 ∉ rest.map Prod.fst := (List.nodup_cons.mp hnd).1
      have hdisj' : ∀ p ∈ rest, (acc ++ [q]).any (fun r => r.1 = p.1) = false := by
        intro p hp
        have h1 : acc.any (fun r => r.1 = p.1) = false := hdisj p (List.mem_cons_of_mem _ hp)
        have h2 : q.1 ≠ p.1 := fun hcontra =>
          hq1 (hcontra ▸ List.mem_map.mpr ⟨p, hp, rfl⟩)
        simp [List.any_append, h1, h2]
      rw [ih (acc ++ [q]) hnd' (fun p hp => hfix p (List.mem_cons_of_mem _ hp)) hdisj']
      simp

/-- C9: flattening is idempotent on an already-flat mapping: when every
value of `x` is a scalar leaf, `flatten_json (flatten_json x) =
flatten_json x`. -/
theorem flatten_idempotent_on_flat_mapping
    (x : Dict) (h : ∀ p ∈ x, isLeaf p.2 = true) :
    flatten_json (flatten_json x "" "_" []) "" "_" [] = flatten_json x "" "_" [] := by
  have h1 : flatten_json x "" "_" []
      = x.foldl (fun a p => dictUpdate a (sanitize p.1) p.2) [] :=
    flatten_json_flat_eq_foldl x "_" [] h
  have hent : ∀ p ∈ flatten_json x "" "_" [], sanitize p.1 = p.1 ∧ isLeaf p.2 = true := by
    rw [h1]
    exact foldl_update_entries x [] h (by simp)
  have hnd : ((flatten_json x "" "_" []).map Prod.fst).Nodup := by
    rw [h1]
    exact foldl_update_keys_nodup x [] (by simp)
  rw [flatten_json_flat_eq_foldl (flatten_json x "" "_" []) "_" []
    (fun p hp => (hent p hp).2)]
  rw [foldl_update_rebuild (flatten_json x "" "_" []) [] hnd
    (fun p hp => (hent p hp).1) (fun p _ => rfl)]
  simp

theorem flatten_idempotent_on_flat_mapping_witness :
    (([("a-b", JsonValue.int 1), ("c", JsonValue.str "s")] : Dict).all
        (fun p => isLeaf p.2)) = true
      ∧ flatten_json
          (flatten_json [("a-b", JsonValue.int 1), ("c", JsonValue.str "s")] "" "_" []) "" "_" []
        = flatten_json [("a-b", JsonValue.int 1), ("c", JsonValue.str "s")] "" "_" [] :=
  ⟨by decide,
   flatten_idempotent_on_flat_mapping [("a-b", JsonValue.int 1), ("c", JsonValue.str "s")]
     (by decide)⟩

end MainTheorems
